import Mathlib

/-!
# Shallow embedding of the NSE PoRep circuit synthesis

This file embeds the circuit-synthesis code of
`storage-proofs/porep/src/nse/circuit/circuit.rs` (the `Circuit::synthesize`
implementation for `NseCircuit`, together with `LayerProof::synthesize` and
`NodeProof::synthesize`) into Lean and proves properties of it.

Modelling conventions:

* The BLS12-381 scalar field `Fr` is modelled as `ZMod rModulus` with the
  real modulus.
* The bellperson constraint system is modelled value-level: the state carries
  the ordered list of allocated public-input values (excluding the implicit
  constant ONE input) and the list of emitted equality constraints, each
  recorded as the pair of the two field values being equated under the
  run's assignment.  A state is satisfied when every recorded pair is equal.
* Fallible synthesis is explicit state passing returning
  `Except SynthesisError`; `AllocatedNum::alloc` with a missing (`None`)
  assignment is the only error source, exactly as in the source where every
  assignment closure returns `SynthesisError::AssignmentMissing` on `None`.
* Rust `u64` challenge values are embedded as `Nat` reduced mod `2 ^ 64` at
  the `UInt64::alloc` boundary.
* The generic gadgets consumed by this file as fixed-contract building
  blocks (`enforce_inclusion`, `PoseidonFunction::hash_md_circuit`, the
  label-derivation gadgets of `nse/circuit/hash.rs`, `to_bits_le` with
  `reverse_bit_numbering`) are code of this repository that is not under
  `src/`; their values are abstracted into a `Gadgets` record and, where a
  contract is stated by the spec, modelled from the spec (see the doc
  comments below).
-/

/-- The modulus of the BLS12-381 scalar field `Fr` used by `paired::bls12_381`. -/
def rModulus : Nat :=
  52435875175126190479447740508185965837690552500527637822603658699938581184513

/-- The scalar field of BLS12-381, the field of `bellperson` circuits here. -/
abbrev Fr := ZMod rModulus

instance : NeZero rModulus := ⟨by norm_num [rModulus]⟩

/-- `bellperson::SynthesisError`, restricted to the variants that the
embedded code can produce or mention. -/
inductive SynthesisError
  | assignmentMissing
  | unsatisfiable
deriving DecidableEq

/-- Value-level state of a constraint system during synthesis: the ordered
public-input values allocated so far (excluding the constant ONE input) and
the emitted equality constraints as value pairs. -/
structure CSState where
  publicInputs : List Fr
  constraints : List (Fr × Fr)
deriving DecidableEq

/-- The empty constraint system a synthesis run starts from. -/
def initState : CSState := { publicInputs := [], constraints := [] }

/-- Allocate a public input carrying the given value (`inputize` /
`pack_into_input`). -/
def pushInput (v : Fr) (s : CSState) : CSState :=
  { s with publicInputs := s.publicInputs ++ [v] }

/-- Emit one equality constraint between two values
(`storage_proofs_core::gadgets::constraint::equal`). -/
def addConstraint (a b : Fr) (s : CSState) : CSState :=
  { s with constraints := s.constraints ++ [(a, b)] }

/-- The assignment recorded in the state satisfies the constraint system
exactly when every emitted equality holds. -/
def CSState.satisfiedB (s : CSState) : Bool :=
  s.constraints.all (fun p => decide (p.1 = p.2))

/-- A Merkle authentication path as carried by a node proof: per tree row,
the sibling values and the position index.  The embedding treats the path as
opaque data consumed by the inclusion gadget. -/
abbrev MerklePath := List (List Fr × Nat)

/-- `nse::Config` (graph configuration), fields as in the source. -/
structure Config where
  k : Nat
  num_nodes_window : Nat
  degree_expander : Nat
  degree_butterfly : Nat
  num_expander_layers : Nat
  num_butterfly_layers : Nat
  sector_size : Nat

/-- Modelled from the spec: `Config::num_layers` (`nse/mod.rs`, not under
`src/`): `num_layers = 1 (first) + num_expander_layers + num_butterfly_layers
+ 1 (last)`. -/
def Config.num_layers (c : Config) : Nat :=
  c.num_expander_layers + c.num_butterfly_layers + 2

/-- The fixed-contract building blocks consumed by the circuit, abstracted as
record fields so that theorems quantify over them.

* `arity` is `PoseidonMDArity::to_usize()` (a positive constant in the source).
* `hashMd` is the value computed by `PoseidonFunction::hash_md_circuit`.
* `computeRootData` and `computeRootLayer` recompute a Merkle root from a
  path and a leaf in the data-tree and layer-tree hash respectively; they
  parameterize the inclusion gadget model below.
* `bitsOf` is `reverse_bit_numbering(num.to_bits_le(..))`.
* `deriveFirst` and `deriveExpander` are the values of
  `derive_first_layer_leaf` and `derive_expander_layer_leaf` from
  `nse/circuit/hash.rs` (repository code not under `src/`). -/
structure Gadgets where
  arity : Nat
  hashMd : List Fr → Fr
  computeRootData : MerklePath → Fr → Fr
  computeRootLayer : MerklePath → Fr → Fr
  bitsOf : Fr → List Bool
  deriveFirst : List Bool → Nat → Nat → Fr
  deriveExpander : List Bool → Nat → Nat → Config → List Fr → Fr

/-- `nse::NodeProof`, with the fields the circuit consumes: the data-tree
path and leaf, the layer-tree path, the challenge index, and the parent
openings (index and optional leaf value). -/
structure NodeProof where
  data_path : MerklePath
  data_leaf : Option Fr
  layer_path : MerklePath
  challenge : Option Nat
  parents : List (Nat × Option Fr)
deriving DecidableEq

/-- `nse::LayerProof`: the node proofs of one challenge across the layer
classes. -/
structure LayerProof where
  first_layer_proof : NodeProof
  expander_layer_proofs : List NodeProof
  butterfly_layer_proofs : List NodeProof
  last_layer_proof : NodeProof
deriving DecidableEq

/-- `NseCircuit`: the circuit struct, with `public_params` reduced to the
`config` field that `synthesize` reads. -/
structure NseCircuit where
  config : Config
  replica_id : Option Fr
  comm_r : Option Fr
  comm_d : Option Fr
  layer_proofs : List LayerProof
  comm_layers : List (Option Fr)

/-- `num::AllocatedNum::alloc` with an assignment closure that returns
`AssignmentMissing` when the optional value is absent. -/
def allocNum (v : Option Fr) (s : CSState) : Except SynthesisError (Fr × CSState) :=
  match v with
  | some x => .ok (x, s)
  | none => .error .assignmentMissing

/-- `UInt64::alloc`: allocate the 64 bits of a `u64` challenge value; the
represented value is the challenge reduced mod `2 ^ 64`.  Missing values give
`AssignmentMissing`. -/
def allocUInt64 (v : Option Nat) (s : CSState) : Except SynthesisError (Nat × CSState) :=
  match v with
  | some c => .ok (c % 2 ^ 64, s)
  | none => .error .assignmentMissing

/-- `UInt64::pack_into_input`: pack the 64 allocated bits into a single
public input whose value is the represented `u64` value. -/
def packIntoInput (c : Nat) (s : CSState) : CSState :=
  pushInput ((c : Fr)) s

/-- Modelled from the spec: the generic Merkle-inclusion gadget
(`storage_proofs_core::gadgets::por::enforce_inclusion`, repository code not
under `src/`).  Per the spec contract it confirms that the inclusion path
authenticates the leaf against the root, i.e. it constrains the root
recomputed from the path and the leaf to equal the given root. -/
def enforceInclusion (recompute : MerklePath → Fr → Fr) (path : MerklePath)
    (root leaf : Fr) (s : CSState) : CSState :=
  addConstraint (recompute path leaf) root s

/-- One padding allocation of `NseCircuit::synthesize`:
`AllocatedNum::alloc` with the assignment closure `|| Ok(Fr::zero())`, which
reads no circuit input and never fails. -/
def allocPaddingZero (s : CSState) : Except SynthesisError (Fr × CSState) :=
  .ok ((0 : Fr), s)

/-- The `while comm_layers_nums_padded.len() % arity != 0` padding loop of
`NseCircuit::synthesize`, run with explicit fuel.  The loop appends at most
`arity - 1` padding witnesses, so fuel `arity` (supplied by `padZeros`) is
an upper bound on its iteration count. -/
def padZerosFuel : Nat → Nat → List Fr → CSState →
    Except SynthesisError (List Fr × CSState)
  | 0, _, xs, s => .ok (xs, s)
  | fuel + 1, arity, xs, s =>
    if xs.length % arity = 0 then .ok (xs, s)
    else
      match allocPaddingZero s with
      | .error e => .error e
      | .ok (z, s1) => padZerosFuel fuel arity (xs ++ [z]) s1

/-- The padding step of `NseCircuit::synthesize`: pad `comm_layers_nums` with
freshly allocated zero witnesses until its length is a multiple of
`PoseidonMDArity`. -/
def padZeros (arity : Nat) (xs : List Fr) (s : CSState) :
    Except SynthesisError (List Fr × CSState) :=
  padZerosFuel arity arity xs s

/-- The padded `comm_layers` value list in closed form: right-pad with zero
until the length is a multiple of `arity`. -/
def padList (arity : Nat) (xs : List Fr) : List Fr :=
  xs ++ List.replicate ((arity - xs.length % arity) % arity) (0 : Fr)

/-- Allocate the `comm_layers` entries in order (`comm_layer_{i}` in the
source), failing with `AssignmentMissing` on a missing entry. -/
def allocCommLayers (ls : List (Option Fr)) (s : CSState) :
    Except SynthesisError (List Fr × CSState) :=
  match ls with
  | [] => .ok ([], s)
  | o :: rest =>
    match allocNum o s with
    | .error e => .error e
    | .ok (v, s1) =>
      match allocCommLayers rest s1 with
      | .error e => .error e
      | .ok (vs, s2) => .ok (v :: vs, s2)

/-- Allocate the parent leaf values of an expander node proof
(`parents_data_{j}` in the source); the parent index component is ignored by
the source (`(_, leaf)`). -/
def allocParents (ps : List (Nat × Option Fr)) (s : CSState) :
    Except SynthesisError (List Fr × CSState) :=
  match ps with
  | [] => .ok ([], s)
  | p :: rest =>
    match allocNum p.2 s with
    | .error e => .error e
    | .ok (v, s1) =>
      match allocParents rest s1 with
      | .error e => .error e
      | .ok (vs, s2) => .ok (v :: vs, s2)

/-- `NodeProof::synthesize`: allocate the data leaf, enforce its inclusion
under `comm_d`, enforce layer inclusion only when a layer leaf is passed,
and do nothing for parents (the `if with_parents` branch of the source is an
empty `TODO`). -/
def NodeProof.synthesize (gd : Gadgets) (p : NodeProof) (comm_d : Fr)
    (layer_root : Fr) (layer_leaf : Option Fr) (with_parents : Bool)
    (s : CSState) : Except SynthesisError CSState :=
  match allocNum p.data_leaf s with
  | .error e => .error e
  | .ok (data_leaf_num, s1) =>
    let s2 := enforceInclusion gd.computeRootData p.data_path comm_d data_leaf_num s1
    let s3 :=
      match layer_leaf with
      | some leaf => enforceInclusion gd.computeRootLayer p.layer_path layer_root leaf s2
      | none => s2
    if with_parents then .ok s3 else .ok s3

/-- The expander-layer loop of `LayerProof::synthesize`, with `i` the
enumeration index: `layer = i + 2`, challenge allocated and packed as a
public input, parents allocated, the expander leaf derived, and the node
proof synthesized against `comm_layers_nums[layer - 1]`. -/
def synthExpanderLayers (gd : Gadgets) (config : Config) (comm_d : Fr)
    (comm_layers_nums : List Fr) (replica_id : List Bool) (i : Nat)
    (proofs : List NodeProof) (s : CSState) : Except SynthesisError CSState :=
  match proofs with
  | [] => .ok s
  | proof :: rest =>
    let layer := i + 2
    match allocUInt64 proof.challenge s with
    | .error e => .error e
    | .ok (challenge_num, s1) =>
      let s2 := packIntoInput challenge_num s1
      match allocParents proof.parents s2 with
      | .error e => .error e
      | .ok (parents_data, s3) =>
        let layer_leaf := gd.deriveExpander replica_id challenge_num layer config parents_data
        match NodeProof.synthesize gd proof comm_d
            (comm_layers_nums.getD (layer - 1) 0) (some layer_leaf) true s3 with
        | .error e => .error e
        | .ok s4 =>
          synthExpanderLayers gd config comm_d comm_layers_nums replica_id (i + 1) rest s4

/-- The `comm_layers` index the butterfly loop reads: the source computes
`layer = i + config.num_expander_layers + 1` and indexes
`comm_layers_nums[layer - i]`. -/
def butterflyRootIndex (config : Config) (i : Nat) : Nat :=
  i + config.num_expander_layers + 1 - i

/-- The butterfly-layer loop of `LayerProof::synthesize`: the challenge is
allocated and packed as a public input, but the butterfly leaf derivation is
commented out in the source and the node proof is synthesized with no layer
leaf, against `comm_layers_nums[layer - i]`. -/
def synthButterflyLayers (gd : Gadgets) (config : Config) (comm_d : Fr)
    (comm_layers_nums : List Fr) (i : Nat) (proofs : List NodeProof)
    (s : CSState) : Except SynthesisError CSState :=
  match proofs with
  | [] => .ok s
  | proof :: rest =>
    match allocUInt64 proof.challenge s with
    | .error e => .error e
    | .ok (challenge_num, s1) =>
      let s2 := packIntoInput challenge_num s1
      match NodeProof.synthesize gd proof comm_d
          (comm_layers_nums.getD (butterflyRootIndex config i) 0) none true s2 with
      | .error e => .error e
      | .ok s3 =>
        synthButterflyLayers gd config comm_d comm_layers_nums (i + 1) rest s3

/-- `LayerProof::synthesize`: first layer (challenge input, first-layer leaf
derived and passed as the layer leaf), then the expander layers, then the
butterfly layers, then the last layer (challenge input, no layer leaf — the
last-layer leaf derivation is commented out in the source, its node proof is
synthesized against `comm_layers_nums[num_layers - 1]`). -/
def LayerProof.synthesize (gd : Gadgets) (lp : LayerProof) (config : Config)
    (comm_d : Fr) (comm_layers_nums : List Fr) (replica_id : List Bool)
    (s : CSState) : Except SynthesisError CSState :=
  match allocUInt64 lp.first_layer_proof.challenge s with
  | .error e => .error e
  | .ok (challenge_num, s1) =>
    let s2 := packIntoInput challenge_num s1
    let layer_leaf := gd.deriveFirst replica_id challenge_num 1
    match NodeProof.synthesize gd lp.first_layer_proof comm_d
        (comm_layers_nums.getD 0 0) (some layer_leaf) false s2 with
    | .error e => .error e
    | .ok s3 =>
      match synthExpanderLayers gd config comm_d comm_layers_nums replica_id 0
          lp.expander_layer_proofs s3 with
      | .error e => .error e
      | .ok s4 =>
        match synthButterflyLayers gd config comm_d comm_layers_nums 0
            lp.butterfly_layer_proofs s4 with
        | .error e => .error e
        | .ok s5 =>
          let layer := config.num_layers
          match allocUInt64 lp.last_layer_proof.challenge s5 with
          | .error e => .error e
          | .ok (last_challenge_num, s6) =>
            let s7 := packIntoInput last_challenge_num s6
            NodeProof.synthesize gd lp.last_layer_proof comm_d
              (comm_layers_nums.getD (layer - 1) 0) none true s7

/-- The `for (i, layer_proof) in layer_proofs` loop of
`NseCircuit::synthesize`. -/
def synthLayerProofs (gd : Gadgets) (config : Config) (comm_d : Fr)
    (comm_layers_nums : List Fr) (replica_id : List Bool)
    (proofs : List LayerProof) (s : CSState) : Except SynthesisError CSState :=
  match proofs with
  | [] => .ok s
  | lp :: rest =>
    match LayerProof.synthesize gd lp config comm_d comm_layers_nums replica_id s with
    | .error e => .error e
    | .ok s1 => synthLayerProofs gd config comm_d comm_layers_nums replica_id rest s1

/-- `NseCircuit::synthesize` (the `Circuit<Bls12>` implementation): allocate
and inputize `replica_id`, `comm_d`, `comm_r`; allocate the `comm_layers`
witnesses; pad them with zero witnesses to a multiple of `PoseidonMDArity`;
constrain `comm_r` equal to the Poseidon MD hash of the padded sequence;
then synthesize every layer proof in order. -/
def NseCircuit.synthesize (gd : Gadgets) (c : NseCircuit) (s : CSState) :
    Except SynthesisError CSState :=
  match allocNum c.replica_id s with
  | .error e => .error e
  | .ok (replica_id_num, s0) =>
    let s1 := pushInput replica_id_num s0
    let replica_id_bits := gd.bitsOf replica_id_num
    match allocNum c.comm_d s1 with
    | .error e => .error e
    | .ok (comm_d_num, s2) =>
      let s3 := pushInput comm_d_num s2
      match allocNum c.comm_r s3 with
      | .error e => .error e
      | .ok (comm_r_num, s4) =>
        let s5 := pushInput comm_r_num s4
        match allocCommLayers c.comm_layers s5 with
        | .error e => .error e
        | .ok (comm_layers_nums, s6) =>
          match padZeros gd.arity comm_layers_nums s6 with
          | .error e => .error e
          | .ok (comm_layers_nums_padded, s7) =>
            let hash_num := gd.hashMd comm_layers_nums_padded
            let s8 := addConstraint comm_r_num hash_num s7
            synthLayerProofs gd c.config comm_d_num comm_layers_nums
              replica_id_bits c.layer_proofs s8

/-- The field value of a packed `u64`: the 64 allocated bits packed into one
field element. -/
def packU64 (c : Nat) : Fr := ((c % 2 ^ 64 : Nat) : Fr)

/-- The packed challenge-index value a node proof contributes as a public
input (meaningful on proofs whose challenge is present). -/
def NodeProof.packedChallenge (p : NodeProof) : Fr := packU64 (p.challenge.getD 0)

/-- The packed challenge inputs one layer proof allocates, in synthesis
order: first layer, expander layers in order, butterfly layers in order,
last layer. -/
def challengesOfLayerProof (lp : LayerProof) : List Fr :=
  lp.first_layer_proof.packedChallenge ::
    (lp.expander_layer_proofs.map NodeProof.packedChallenge ++
      (lp.butterfly_layer_proofs.map NodeProof.packedChallenge ++
        [lp.last_layer_proof.packedChallenge]))

/-- All packed challenge inputs of a sequence of layer proofs, in synthesis
order. -/
def challengeInputs (proofs : List LayerProof) : List Fr :=
  proofs.flatMap challengesOfLayerProof

/-- The raw challenge indices stored in a layer proof, in layer order. -/
def LayerProof.challengeList (lp : LayerProof) : List (Option Nat) :=
  lp.first_layer_proof.challenge ::
    (lp.expander_layer_proofs.map NodeProof.challenge ++
      (lp.butterfly_layer_proofs.map NodeProof.challenge ++
        [lp.last_layer_proof.challenge]))

/-- Modelled from the spec: the native public-input generator
(`NseCompound::generate_public_inputs`, repository code that is not under
`src/`).  Per the spec it produces the ordered list `replica_id`, `comm_d`,
`comm_r`, then for every layer proof (one per sampled challenge) and every
layer within it the packed challenge index; `challenges` is, per layer
proof, the list of per-layer challenge indices produced by the
challenge-derivation rule. -/
def generatePublicInputs (replica_id comm_d comm_r : Fr)
    (challenges : List (List Nat)) : List Fr :=
  replica_id :: comm_d :: comm_r ::
    challenges.flatMap (fun cs => cs.map packU64)

/-- The witness data a node proof must carry for its synthesis steps to
find their assignments. -/
def NodeProof.present (p : NodeProof) : Prop :=
  p.data_leaf.isSome = true ∧ p.challenge.isSome = true

/-- The witness data a layer proof must carry for its synthesis to find all
assignments. -/
def LayerProof.present (lp : LayerProof) : Prop :=
  lp.first_layer_proof.present
  ∧ (∀ p ∈ lp.expander_layer_proofs, p.present ∧ ∀ q ∈ p.parents, q.2.isSome = true)
  ∧ (∀ p ∈ lp.butterfly_layer_proofs, p.present)
  ∧ lp.last_layer_proof.present

/-- A concrete instantiation of the fixed-contract building blocks, used to
evaluate the synthesis embedding on concrete circuits. -/
def gd0 : Gadgets where
  arity := 1
  hashMd := fun xs => xs.sum
  computeRootData := fun _ leaf => leaf
  computeRootLayer := fun _ leaf => leaf
  bitsOf := fun _ => []
  deriveFirst := fun _ c _ => (c : Fr)
  deriveExpander := fun _ c l _ ps => (c : Fr) + (l : Fr) + ps.sum

/-- A concrete graph configuration with one expander and one butterfly
layer (`num_layers = 4`). -/
def cfg1 : Config where
  k := 1
  num_nodes_window := 1
  degree_expander := 1
  degree_butterfly := 1
  num_expander_layers := 1
  num_butterfly_layers := 1
  sector_size := 1

/-- A concrete layer proof with all witness data present. -/
def lpL : LayerProof where
  first_layer_proof :=
    { data_path := [], data_leaf := some 5, layer_path := [], challenge := some 1,
      parents := [] }
  expander_layer_proofs :=
    [{ data_path := [], data_leaf := some 6, layer_path := [], challenge := some 2,
       parents := [(0, some 7)] }]
  butterfly_layer_proofs :=
    [{ data_path := [], data_leaf := some 8, layer_path := [], challenge := some 3,
       parents := [] }]
  last_layer_proof :=
    { data_path := [], data_leaf := some 9, layer_path := [], challenge := some 4,
      parents := [] }

/-- A concrete circuit with one layer proof and all witness data present. -/
def cL : NseCircuit where
  config := cfg1
  replica_id := some 100
  comm_r := some 101
  comm_d := some 102
  layer_proofs := [lpL]
  comm_layers := [some 10, some 20, some 30, some 40]

/-- The constraint system `cL` synthesizes from the empty state. -/
def sL : CSState where
  publicInputs := [100, 102, 101, 1, 2, 3, 4]
  constraints := [(101, 100), (5, 102), (1, 10), (6, 102), (11, 20), (8, 102), (9, 102)]

/-- A concrete circuit (no layer proofs) whose `comm_r` violates the
commitment invariant: with `gd0` the hash of the padded `comm_layers`
sequence `[1]` is `1`, but `comm_r = 2`. -/
def cW : NseCircuit where
  config := cfg1
  replica_id := some 0
  comm_r := some 2
  comm_d := some 0
  layer_proofs := []
  comm_layers := [some 1]

/-- The constraint system `cW` synthesizes from the empty state. -/
def sW : CSState where
  publicInputs := [0, 0, 2]
  constraints := [(2, 1)]

/-- A concrete satisfiable circuit: data leaves all equal `comm_d = 102`,
`comm_layers = [1, 11, 30, 40]` matches the derived first-layer and
expander-layer labels under `gd0`, and `comm_r = 82` is the `gd0` hash of
the padded `comm_layers`.  Its butterfly-layer and last-layer node proofs
carry garbage layer openings. -/
def cSat1 : NseCircuit where
  config := cfg1
  replica_id := some 50
  comm_r := some 82
  comm_d := some 102
  layer_proofs :=
    [{ first_layer_proof :=
         { data_path := [], data_leaf := some 102, layer_path := [], challenge := some 1,
           parents := [] }
       expander_layer_proofs :=
         [{ data_path := [], data_leaf := some 102, layer_path := [], challenge := some 2,
            parents := [(0, some 7)] }]
       butterfly_layer_proofs :=
         [{ data_path := [], data_leaf := some 102, layer_path := [([1, 2], 3)],
            challenge := some 3, parents := [] }]
       last_layer_proof :=
         { data_path := [], data_leaf := some 102, layer_path := [([4, 5], 6)],
           challenge := some 4, parents := [] } }]
  comm_layers := [some 1, some 11, some 30, some 40]

/-- The same circuit as `cSat1` with different garbage in the butterfly-
and last-layer openings. -/
def cSat2 : NseCircuit where
  config := cfg1
  replica_id := some 50
  comm_r := some 82
  comm_d := some 102
  layer_proofs :=
    [{ first_layer_proof :=
         { data_path := [], data_leaf := some 102, layer_path := [], challenge := some 1,
           parents := [] }
       expander_layer_proofs :=
         [{ data_path := [], data_leaf := some 102, layer_path := [], challenge := some 2,
            parents := [(0, some 7)] }]
       butterfly_layer_proofs :=
         [{ data_path := [], data_leaf := some 102, layer_path := [([7], 8)],
            challenge := some 3, parents := [] }]
       last_layer_proof :=
         { data_path := [], data_leaf := some 102, layer_path := [],
           challenge := some 4, parents := [] } }]
  comm_layers := [some 1, some 11, some 30, some 40]

/-- The constraint system both `cSat1` and `cSat2` synthesize from the
empty state; every constraint in it is satisfied. -/
def sSat : CSState where
  publicInputs := [50, 102, 82, 1, 2, 3, 4]
  constraints := [(82, 82), (102, 102), (1, 1), (102, 102), (11, 11), (102, 102), (102, 102)]

/-- A concrete circuit missing its `replica_id` witness. -/
def cM : NseCircuit where
  config := cfg1
  replica_id := none
  comm_r := some 0
  comm_d := some 0
  layer_proofs := []
  comm_layers := []

/-! ## Lemmas: padding -/

/-- One padding step decreases the outstanding padding count by one. -/
theorem padStep_arith {arity len : Nat} (h : 0 < arity) (hmod : len % arity ≠ 0) :
    (arity - (len + 1) % arity) % arity = (arity - len % arity) % arity - 1
    ∧ 1 ≤ (arity - len % arity) % arity := by
  have hr : len % arity < arity := Nat.mod_lt _ h
  have hr0 : 0 < len % arity := Nat.pos_of_ne_zero hmod
  have hk : (arity - len % arity) % arity = arity - len % arity :=
    Nat.mod_eq_of_lt (by omega)
  have h1 : (len + 1) % arity = (len % arity + 1) % arity := by
    rw [Nat.add_mod, Nat.mod_eq_of_lt (show (1 : Nat) < arity by omega)]
  rcases Nat.lt_or_ge (len % arity + 1) arity with hlt | hge
  · rw [h1, Nat.mod_eq_of_lt hlt, hk, Nat.mod_eq_of_lt (by omega)]
    omega
  · have h3 : len % arity + 1 = arity := by omega
    rw [h1, h3, Nat.mod_self, Nat.sub_zero, Nat.mod_self, hk]
    omega

/-- With enough fuel, the padding loop right-pads with zeros to the next
multiple of the arity without touching the constraint system. -/
theorem padZerosFuel_eq {arity : Nat} (h : 0 < arity) :
    ∀ fuel (xs : List Fr) (s : CSState),
      (arity - xs.length % arity) % arity ≤ fuel →
      padZerosFuel fuel arity xs s =
        .ok (xs ++ List.replicate ((arity - xs.length % arity) % arity) (0 : Fr), s) := by
  intro fuel
  induction fuel with
  | zero =>
    intro xs s hfk
    have h0 : (arity - xs.length % arity) % arity = 0 := Nat.le_zero.mp hfk
    rw [padZerosFuel, h0]
    simp
  | succ n ih =>
    intro xs s hfk
    by_cases hmod : xs.length % arity = 0
    · have h0 : (arity - xs.length % arity) % arity = 0 := by
        rw [hmod, Nat.sub_zero, Nat.mod_self]
      rw [padZerosFuel, if_pos hmod, h0]
      simp
    · obtain ⟨heq, hge1⟩ := padStep_arith h hmod
      rw [padZerosFuel, if_neg hmod]
      simp only [allocPaddingZero]
      have hlen : (xs ++ [(0 : Fr)]).length = xs.length + 1 := by simp
      have hk2 : (arity - (xs ++ [(0 : Fr)]).length % arity) % arity ≤ n := by
        rw [hlen, heq]; omega
      rw [ih (xs ++ [(0 : Fr)]) s hk2, hlen, heq]
      obtain ⟨m, hm⟩ : ∃ m, (arity - xs.length % arity) % arity = m + 1 :=
        ⟨(arity - xs.length % arity) % arity - 1, by omega⟩
      rw [hm]
      simp [List.replicate_succ, List.append_assoc]

/-- The padding loop of the source, run with fuel `arity`, equals the
closed-form `padList` and leaves the constraint system untouched. -/
theorem padZeros_eq (arity : Nat) (xs : List Fr) (s : CSState) :
    padZeros arity xs s = .ok (padList arity xs, s) := by
  rcases Nat.eq_zero_or_pos arity with h0 | hpos
  · subst h0
    rw [padZeros, padZerosFuel, padList]
    simp [Nat.mod_zero]
  · rw [padZeros, padList]
    exact padZerosFuel_eq hpos arity xs s (le_of_lt (Nat.mod_lt _ hpos))

/-- The padded list length is a multiple of the arity. -/
theorem padList_length_mod (arity : Nat) (xs : List Fr) (h : 0 < arity) :
    (padList arity xs).length % arity = 0 := by
  rw [padList, List.length_append, List.length_replicate]
  by_cases hmod : xs.length % arity = 0
  · rw [hmod, Nat.sub_zero, Nat.mod_self, Nat.add_zero]
    exact hmod
  · have hr : xs.length % arity < arity := Nat.mod_lt _ h
    have hr0 : 0 < xs.length % arity := Nat.pos_of_ne_zero hmod
    have hd := Nat.div_add_mod xs.length arity
    rw [Nat.mod_eq_of_lt (show arity - xs.length % arity < arity by omega)]
    have h4 : arity * (xs.length / arity + 1) = arity * (xs.length / arity) + arity :=
      Nat.mul_succ arity _
    have h3 : xs.length + (arity - xs.length % arity) = arity * (xs.length / arity + 1) := by
      omega
    rw [h3, Nat.mul_mod_right]

/-- The padded list length is the least multiple of the arity at least the
original length. -/
theorem padList_length_min (arity : Nat) (xs : List Fr) (h : 0 < arity) :
    ∀ m, m % arity = 0 → xs.length ≤ m → (padList arity xs).length ≤ m := by
  intro m hm hlen
  by_contra hcon
  push_neg at hcon
  have hk : (arity - xs.length % arity) % arity < arity := Nat.mod_lt _ h
  have hplen : (padList arity xs).length
      = xs.length + (arity - xs.length % arity) % arity := by
    rw [padList, List.length_append, List.length_replicate]
  have hmod0 : (padList arity xs).length % arity = 0 := padList_length_mod arity xs h
  have hmeq : Nat.ModEq arity m (padList arity xs).length := by
    unfold Nat.ModEq
    rw [hm, hmod0]
  have hdvd : arity ∣ (padList arity xs).length - m :=
    (Nat.modEq_iff_dvd' (le_of_lt hcon)).mp hmeq
  have hpos : 0 < (padList arity xs).length - m := by omega
  exact absurd (Nat.le_of_dvd hpos hdvd) (by omega)

/-! ## Lemmas: allocation -/

theorem allocNum_ok {v : Option Fr} {s : CSState} {x : Fr} {s1 : CSState}
    (h : allocNum v s = .ok (x, s1)) : v = some x ∧ s1 = s := by
  cases v with
  | none => simp [allocNum] at h
  | some y =>
    simp only [allocNum, Except.ok.injEq, Prod.mk.injEq] at h
    exact ⟨by rw [h.1], h.2.symm⟩

theorem allocNum_err {v : Option Fr} {s : CSState} {e : SynthesisError}
    (h : allocNum v s = .error e) : v = none ∧ e = .assignmentMissing := by
  cases v with
  | none =>
    simp only [allocNum, Except.error.injEq] at h
    exact ⟨rfl, h.symm⟩
  | some y => simp [allocNum] at h

theorem allocUInt64_ok {v : Option Nat} {s : CSState} {c : Nat} {s1 : CSState}
    (h : allocUInt64 v s = .ok (c, s1)) : ∃ n, v = some n ∧ c = n % 2 ^ 64 ∧ s1 = s := by
  cases v with
  | none => simp [allocUInt64] at h
  | some n =>
    simp only [allocUInt64, Except.ok.injEq, Prod.mk.injEq] at h
    exact ⟨n, rfl, h.1.symm, h.2.symm⟩

theorem allocUInt64_err {v : Option Nat} {s : CSState} {e : SynthesisError}
    (h : allocUInt64 v s = .error e) : v = none ∧ e = .assignmentMissing := by
  cases v with
  | none =>
    simp only [allocUInt64, Except.error.injEq] at h
    exact ⟨rfl, h.symm⟩
  | some n => simp [allocUInt64] at h

theorem allocCommLayers_ok {ls : List (Option Fr)} {s : CSState} {vs : List Fr}
    {s2 : CSState} (h : allocCommLayers ls s = .ok (vs, s2)) :
    ls = vs.map some ∧ s2 = s := by
  induction ls generalizing s vs s2 with
  | nil =>
    simp only [allocCommLayers, Except.ok.injEq, Prod.mk.injEq] at h
    rw [← h.1, ← h.2]
    simp
  | cons o rest ih =>
    rw [allocCommLayers] at h
    split at h
    · simp at h
    · next v s1 heq1 =>
      split at h
      · simp at h
      · next vs3 s3 heq2 =>
        simp only [Except.ok.injEq, Prod.mk.injEq] at h
        obtain ⟨ho, hs1⟩ := allocNum_ok heq1
        obtain ⟨hrest, hs3⟩ := ih heq2
        rw [← h.1, ← h.2]
        simp [ho, hrest, hs3, hs1]

theorem allocCommLayers_err {ls : List (Option Fr)} {s : CSState} {e : SynthesisError}
    (h : allocCommLayers ls s = .error e) : e = .assignmentMissing := by
  induction ls generalizing s e with
  | nil => simp [allocCommLayers] at h
  | cons o rest ih =>
    rw [allocCommLayers] at h
    split at h
    · next e1 heq1 =>
      simp only [Except.error.injEq] at h
      rw [← h]
      exact (allocNum_err heq1).2
    · next v s1 heq1 =>
      split at h
      · next e1 heq2 =>
        simp only [Except.error.injEq] at h
        rw [← h]
        exact ih heq2
      · simp at h

theorem allocParents_ok {ps : List (Nat × Option Fr)} {s : CSState} {vs : List Fr}
    {s2 : CSState} (h : allocParents ps s = .ok (vs, s2)) :
    s2 = s ∧ ∀ q ∈ ps, q.2.isSome = true := by
  induction ps generalizing s vs s2 with
  | nil =>
    simp only [allocParents, Except.ok.injEq, Prod.mk.injEq] at h
    rw [← h.2]
    simp
  | cons p rest ih =>
    rw [allocParents] at h
    split at h
    · simp at h
    · next v s1 heq1 =>
      split at h
      · simp at h
      · next vs3 s3 heq2 =>
        simp only [Except.ok.injEq, Prod.mk.injEq] at h
        obtain ⟨hp, hs1⟩ := allocNum_ok heq1
        obtain ⟨hs3, hrest⟩ := ih heq2
        refine ⟨by rw [← h.2, hs3, hs1], ?_⟩
        intro q hq
        rcases List.mem_cons.mp hq with rfl | hq2
        · rw [hp]; rfl
        · exact hrest q hq2

theorem allocParents_err {ps : List (Nat × Option Fr)} {s : CSState} {e : SynthesisError}
    (h : allocParents ps s = .error e) : e = .assignmentMissing := by
  induction ps generalizing s e with
  | nil => simp [allocParents] at h
  | cons p rest ih =>
    rw [allocParents] at h
    split at h
    · next e1 heq1 =>
      simp only [Except.error.injEq] at h
      rw [← h]
      exact (allocNum_err heq1).2
    · next v s1 heq1 =>
      split at h
      · next e1 heq2 =>
        simp only [Except.error.injEq] at h
        rw [← h]
        exact ih heq2
      · simp at h

/-! ## Lemmas: node-proof synthesis -/

theorem constraints_append_trans {a b c : List (Fr × Fr)} (h1 : ∃ t, b = a ++ t)
    (h2 : ∃ u, c = b ++ u) : ∃ w, c = a ++ w := by
  obtain ⟨t, rfl⟩ := h1
  obtain ⟨u, rfl⟩ := h2
  exact ⟨t ++ u, List.append_assoc a t u⟩

theorem nodeSynth_ok {gd : Gadgets} {p : NodeProof} {cd lr : Fr} {ll : Option Fr}
    {wp : Bool} {s s2 : CSState}
    (h : NodeProof.synthesize gd p cd lr ll wp s = .ok s2) :
    s2.publicInputs = s.publicInputs
    ∧ (∃ t, s2.constraints = s.constraints ++ t)
    ∧ p.data_leaf.isSome = true := by
  cases hv : p.data_leaf with
  | none =>
    rw [NodeProof.synthesize, hv] at h
    simp [allocNum] at h
  | some d =>
    rw [NodeProof.synthesize, hv] at h
    cases ll with
    | none =>
      simp only [allocNum, enforceInclusion, addConstraint, ite_self,
        Except.ok.injEq] at h
      rw [← h]
      exact ⟨rfl, ⟨[(gd.computeRootData p.data_path d, cd)], rfl⟩, rfl⟩
    | some leaf =>
      simp only [allocNum, enforceInclusion, addConstraint, ite_self,
        Except.ok.injEq] at h
      rw [← h]
      refine ⟨rfl, ⟨[(gd.computeRootData p.data_path d, cd),
        (gd.computeRootLayer p.layer_path leaf, lr)], ?_⟩, rfl⟩
      simp

theorem nodeSynth_err {gd : Gadgets} {p : NodeProof} {cd lr : Fr} {ll : Option Fr}
    {wp : Bool} {s : CSState} {e : SynthesisError}
    (h : NodeProof.synthesize gd p cd lr ll wp s = .error e) :
    e = .assignmentMissing := by
  cases hv : p.data_leaf with
  | none =>
    rw [NodeProof.synthesize, hv] at h
    simp only [allocNum, Except.error.injEq] at h
    exact h.symm
  | some d =>
    rw [NodeProof.synthesize, hv] at h
    cases ll <;> simp [allocNum, ite_self] at h

/-- With no layer leaf passed, `NodeProof::synthesize` ignores the layer
root, the layer path, the parent openings and the `with_parents` flag: only
the data-tree inclusion of the data leaf is synthesized. -/
theorem nodeSynth_none_irrel (gd : Gadgets) (p : NodeProof) (cd : Fr)
    (r1 r2 : Fr) (path2 : MerklePath) (parents2 : List (Nat × Option Fr))
    (wp1 wp2 : Bool) (s : CSState) :
    NodeProof.synthesize gd
      { p with layer_path := path2, parents := parents2 } cd r1 none wp1 s
    = NodeProof.synthesize gd p cd r2 none wp2 s := by
  cases hv : p.data_leaf <;>
    simp [NodeProof.synthesize, allocNum, hv, ite_self]

/-! ## Lemmas: layer sections -/

theorem synthExpanderLayers_ok {gd : Gadgets} {config : Config} {cd : Fr}
    {cls : List Fr} {rid : List Bool} {ps : List NodeProof} {i : Nat}
    {s s2 : CSState}
    (h : synthExpanderLayers gd config cd cls rid i ps s = .ok s2) :
    s2.publicInputs = s.publicInputs ++ ps.map NodeProof.packedChallenge
    ∧ (∃ t, s2.constraints = s.constraints ++ t)
    ∧ ∀ p ∈ ps, p.present ∧ ∀ q ∈ p.parents, q.2.isSome = true := by
  induction ps generalizing i s s2 with
  | nil =>
    simp only [synthExpanderLayers, Except.ok.injEq] at h
    rw [← h]
    exact ⟨by simp, ⟨[], by simp⟩, by simp⟩
  | cons proof rest ih =>
    cases hc : proof.challenge with
    | none =>
      rw [synthExpanderLayers, hc] at h
      simp [allocUInt64] at h
    | some n =>
      rw [synthExpanderLayers, hc] at h
      simp only [allocUInt64] at h
      split at h
      · simp at h
      · next pd s3 heqP =>
        split at h
        · simp at h
        · next s4 heqN =>
          obtain ⟨hpi4, hct4, hpres4⟩ := ih h
          obtain ⟨hpiN, hctN, hdl⟩ := nodeSynth_ok heqN
          obtain ⟨hs3, hpar⟩ := allocParents_ok heqP
          refine ⟨?_, ?_, ?_⟩
          · rw [hpi4, hpiN, hs3]
            simp [packIntoInput, pushInput, NodeProof.packedChallenge, packU64, hc]
          · refine constraints_append_trans ?_ (constraints_append_trans hctN hct4)
            rw [hs3]
            exact ⟨[], by simp [packIntoInput, pushInput]⟩
          · intro p hp
            rcases List.mem_cons.mp hp with rfl | hp2
            · exact ⟨⟨hdl, by rw [hc]; rfl⟩, hpar⟩
            · exact hpres4 p hp2

theorem synthExpanderLayers_err {gd : Gadgets} {config : Config} {cd : Fr}
    {cls : List Fr} {rid : List Bool} {ps : List NodeProof} {i : Nat}
    {s : CSState} {e : SynthesisError}
    (h : synthExpanderLayers gd config cd cls rid i ps s = .error e) :
    e = .assignmentMissing := by
  induction ps generalizing i s e with
  | nil => simp [synthExpanderLayers] at h
  | cons proof rest ih =>
    cases hc : proof.challenge with
    | none =>
      rw [synthExpanderLayers, hc] at h
      simp only [allocUInt64, Except.error.injEq] at h
      exact h.symm
    | some n =>
      rw [synthExpanderLayers, hc] at h
      simp only [allocUInt64] at h
      split at h
      · next e1 heq =>
        simp only [Except.error.injEq] at h
        rw [← h]
        exact allocParents_err heq
      · next pd s3 heqP =>
        split at h
        · next e1 heq =>
          simp only [Except.error.injEq] at h
          rw [← h]
          exact nodeSynth_err heq
        · next s4 heqN => exact ih h

theorem synthButterflyLayers_ok {gd : Gadgets} {config : Config} {cd : Fr}
    {cls : List Fr} {ps : List NodeProof} {i : Nat} {s s2 : CSState}
    (h : synthButterflyLayers gd config cd cls i ps s = .ok s2) :
    s2.publicInputs = s.publicInputs ++ ps.map NodeProof.packedChallenge
    ∧ (∃ t, s2.constraints = s.constraints ++ t)
    ∧ ∀ p ∈ ps, p.present := by
  induction ps generalizing i s s2 with
  | nil =>
    simp only [synthButterflyLayers, Except.ok.injEq] at h
    rw [← h]
    exact ⟨by simp, ⟨[], by simp⟩, by simp⟩
  | cons proof rest ih =>
    cases hc : proof.challenge with
    | none =>
      rw [synthButterflyLayers, hc] at h
      simp [allocUInt64] at h
    | some n =>
      rw [synthButterflyLayers, hc] at h
      simp only [allocUInt64] at h
      split at h
      · simp at h
      · next s3 heqN =>
        obtain ⟨hpi3, hct3, hpres3⟩ := ih h
        obtain ⟨hpiN, hctN, hdl⟩ := nodeSynth_ok heqN
        refine ⟨?_, ?_, ?_⟩
        · rw [hpi3, hpiN]
          simp [packIntoInput, pushInput, NodeProof.packedChallenge, packU64, hc]
        · refine constraints_append_trans ?_ (constraints_append_trans hctN hct3)
          exact ⟨[], by simp [packIntoInput, pushInput]⟩
        · intro p hp
          rcases List.mem_cons.mp hp with rfl | hp2
          · exact ⟨hdl, by rw [hc]; rfl⟩
          · exact hpres3 p hp2

theorem synthButterflyLayers_err {gd : Gadgets} {config : Config} {cd : Fr}
    {cls : List Fr} {ps : List NodeProof} {i : Nat} {s : CSState}
    {e : SynthesisError}
    (h : synthButterflyLayers gd config cd cls i ps s = .error e) :
    e = .assignmentMissing := by
  induction ps generalizing i s e with
  | nil => simp [synthButterflyLayers] at h
  | cons proof rest ih =>
    cases hc : proof.challenge with
    | none =>
      rw [synthButterflyLayers, hc] at h
      simp only [allocUInt64, Except.error.injEq] at h
      exact h.symm
    | some n =>
      rw [synthButterflyLayers, hc] at h
      simp only [allocUInt64] at h
      split at h
      · next e1 heq =>
        simp only [Except.error.injEq] at h
        rw [← h]
        exact nodeSynth_err heq
      · next s3 heqN => exact ih h

/-! ## Lemmas: layer proofs and the top level -/

theorem layerProofSynth_ok {gd : Gadgets} {lp : LayerProof} {config : Config}
    {cd : Fr} {cls : List Fr} {rid : List Bool} {s s2 : CSState}
    (h : LayerProof.synthesize gd lp config cd cls rid s = .ok s2) :
    s2.publicInputs = s.publicInputs ++ challengesOfLayerProof lp
    ∧ (∃ t, s2.constraints = s.constraints ++ t)
    ∧ lp.present := by
  cases hc1 : lp.first_layer_proof.challenge with
  | none =>
    rw [LayerProof.synthesize, hc1] at h
    simp [allocUInt64] at h
  | some n1 =>
    rw [LayerProof.synthesize, hc1] at h
    simp only [allocUInt64] at h
    split at h
    · simp at h
    · next s3 heqN1 =>
      split at h
      · simp at h
      · next s4 heqE =>
        split at h
        · simp at h
        · next s5 heqB =>
          cases hc4 : lp.last_layer_proof.challenge with
          | none =>
            rw [hc4] at h
            simp [allocUInt64] at h
          | some n4 =>
            rw [hc4] at h
            simp only [allocUInt64] at h
            obtain ⟨hpiN4, hctN4, hdl4⟩ := nodeSynth_ok h
            obtain ⟨hpiB, hctB, hpresB⟩ := synthButterflyLayers_ok heqB
            obtain ⟨hpiE, hctE, hpresE⟩ := synthExpanderLayers_ok heqE
            obtain ⟨hpiN1, hctN1, hdl1⟩ := nodeSynth_ok heqN1
            refine ⟨?_, ?_, ?_⟩
            · simp only [packIntoInput, pushInput] at hpiN4 hpiN1
              rw [hpiN4, hpiB, hpiE, hpiN1]
              simp [challengesOfLayerProof, NodeProof.packedChallenge, packU64,
                hc1, hc4]
            · refine constraints_append_trans ?_
                (constraints_append_trans hctE
                  (constraints_append_trans hctB
                    (constraints_append_trans ⟨[], by simp [packIntoInput, pushInput]⟩ hctN4)))
              refine constraints_append_trans ⟨[], by simp [packIntoInput, pushInput]⟩ hctN1
            · exact ⟨⟨hdl1, by rw [hc1]; rfl⟩,
                fun p hp => hpresE p hp,
                fun p hp => hpresB p hp,
                ⟨hdl4, by rw [hc4]; rfl⟩⟩

theorem layerProofSynth_err {gd : Gadgets} {lp : LayerProof} {config : Config}
    {cd : Fr} {cls : List Fr} {rid : List Bool} {s : CSState} {e : SynthesisError}
    (h : LayerProof.synthesize gd lp config cd cls rid s = .error e) :
    e = .assignmentMissing := by
  cases hc1 : lp.first_layer_proof.challenge with
  | none =>
    rw [LayerProof.synthesize, hc1] at h
    simp only [allocUInt64, Except.error.injEq] at h
    exact h.symm
  | some n1 =>
    rw [LayerProof.synthesize, hc1] at h
    simp only [allocUInt64] at h
    split at h
    · next e1 heq =>
      simp only [Except.error.injEq] at h
      rw [← h]
      exact nodeSynth_err heq
    · next s3 heqN1 =>
      split at h
      · next e1 heq =>
        simp only [Except.error.injEq] at h
        rw [← h]
        exact synthExpanderLayers_err heq
      · next s4 heqE =>
        split at h
        · next e1 heq =>
          simp only [Except.error.injEq] at h
          rw [← h]
          exact synthButterflyLayers_err heq
        · next s5 heqB =>
          cases hc4 : lp.last_layer_proof.challenge with
          | none =>
            rw [hc4] at h
            simp only [allocUInt64, Except.error.injEq] at h
            exact h.symm
          | some n4 =>
            rw [hc4] at h
            simp only [allocUInt64] at h
            exact nodeSynth_err h

theorem synthLayerProofs_ok {gd : Gadgets} {config : Config} {cd : Fr}
    {cls : List Fr} {rid : List Bool} {proofs : List LayerProof} {s s2 : CSState}
    (h : synthLayerProofs gd config cd cls rid proofs s = .ok s2) :
    s2.publicInputs = s.publicInputs ++ challengeInputs proofs
    ∧ (∃ t, s2.constraints = s.constraints ++ t)
    ∧ ∀ lp ∈ proofs, lp.present := by
  induction proofs generalizing s s2 with
  | nil =>
    simp only [synthLayerProofs, Except.ok.injEq] at h
    rw [← h]
    exact ⟨by simp [challengeInputs], ⟨[], by simp⟩, by simp⟩
  | cons lp rest ih =>
    rw [synthLayerProofs] at h
    split at h
    · simp at h
    · next s1 heqL =>
      obtain ⟨hpi1, hct1, hpres1⟩ := layerProofSynth_ok heqL
      obtain ⟨hpiR, hctR, hpresR⟩ := ih h
      refine ⟨?_, constraints_append_trans hct1 hctR, ?_⟩
      · rw [hpiR, hpi1]
        simp [challengeInputs]
      · intro q hq
        rcases List.mem_cons.mp hq with rfl | hq2
        · exact hpres1
        · exact hpresR q hq2

theorem synthLayerProofs_err {gd : Gadgets} {config : Config} {cd : Fr}
    {cls : List Fr} {rid : List Bool} {proofs : List LayerProof} {s : CSState}
    {e : SynthesisError}
    (h : synthLayerProofs gd config cd cls rid proofs s = .error e) :
    e = .assignmentMissing := by
  induction proofs generalizing s e with
  | nil => simp [synthLayerProofs] at h
  | cons lp rest ih =>
    rw [synthLayerProofs] at h
    split at h
    · next e1 heq =>
      simp only [Except.error.injEq] at h
      rw [← h]
      exact layerProofSynth_err heq
    · next s1 heqL => exact ih h

theorem nseSynth_ok {gd : Gadgets} {c : NseCircuit} {s s2 : CSState}
    (h : NseCircuit.synthesize gd c s = .ok s2) :
    ∃ r d cr ls t,
      c.replica_id = some r ∧ c.comm_d = some d ∧ c.comm_r = some cr
      ∧ c.comm_layers = ls.map some
      ∧ s2.publicInputs = s.publicInputs ++ r :: d :: cr :: challengeInputs c.layer_proofs
      ∧ s2.constraints = s.constraints ++ (cr, gd.hashMd (padList gd.arity ls)) :: t
      ∧ (∀ lp ∈ c.layer_proofs, lp.present) := by
  cases hr : c.replica_id with
  | none =>
    rw [NseCircuit.synthesize, hr] at h
    simp [allocNum] at h
  | some r =>
    rw [NseCircuit.synthesize, hr] at h
    cases hd : c.comm_d with
    | none =>
      rw [hd] at h
      simp [allocNum] at h
    | some d =>
      rw [hd] at h
      cases hcr : c.comm_r with
      | none =>
        rw [hcr] at h
        simp [allocNum] at h
      | some cr =>
        rw [hcr] at h
        simp only [allocNum] at h
        split at h
        · simp at h
        · next vs s6 heqC =>
          rw [padZeros_eq] at h
          simp only at h
          obtain ⟨hls, hs6⟩ := allocCommLayers_ok heqC
          obtain ⟨hpiL, hctL, hpresL⟩ := synthLayerProofs_ok h
          obtain ⟨t, ht⟩ := hctL
          refine ⟨r, d, cr, vs, t, rfl, rfl, rfl, hls, ?_, ?_, hpresL⟩
          · rw [hpiL, hs6]
            simp [addConstraint, pushInput]
          · rw [ht, hs6]
            simp [addConstraint, pushInput]

theorem nseSynth_err {gd : Gadgets} {c : NseCircuit} {s : CSState}
    {e : SynthesisError} (h : NseCircuit.synthesize gd c s = .error e) :
    e = .assignmentMissing := by
  cases hr : c.replica_id with
  | none =>
    rw [NseCircuit.synthesize, hr] at h
    simp only [allocNum, Except.error.injEq] at h
    exact h.symm
  | some r =>
    rw [NseCircuit.synthesize, hr] at h
    cases hd : c.comm_d with
    | none =>
      rw [hd] at h
      simp only [allocNum, Except.error.injEq] at h
      exact h.symm
    | some d =>
      rw [hd] at h
      cases hcr : c.comm_r with
      | none =>
        rw [hcr] at h
        simp only [allocNum, Except.error.injEq] at h
        exact h.symm
      | some cr =>
        rw [hcr] at h
        simp only [allocNum] at h
        split at h
        · next e1 heq =>
          simp only [Except.error.injEq] at h
          rw [← h]
          exact allocCommLayers_err heq
        · next vs s6 heqC =>
          rw [padZeros_eq] at h
          simp only at h
          exact synthLayerProofs_err h

/-! ## Lemmas: challenge inputs -/

theorem challengesOf_eq_map (lp : LayerProof) :
    challengesOfLayerProof lp
      = lp.challengeList.map (fun o => packU64 (o.getD 0)) := by
  simp only [challengesOfLayerProof, LayerProof.challengeList, List.map_cons,
    List.map_append, List.map_map]
  rfl

theorem challengesOf_of_challengeList {lp : LayerProof} {cs : List Nat}
    (h : lp.challengeList = cs.map some) :
    challengesOfLayerProof lp = cs.map packU64 := by
  rw [challengesOf_eq_map, h, List.map_map]
  simp [Function.comp]

theorem challengeInputs_of_challengeLists {proofs : List LayerProof}
    {chals : List (List Nat)}
    (h : proofs.map LayerProof.challengeList = chals.map (List.map some)) :
    challengeInputs proofs = chals.flatMap (fun cs => cs.map packU64) := by
  induction proofs generalizing chals with
  | nil =>
    cases chals with
    | nil => simp [challengeInputs]
    | cons a b => simp at h
  | cons lp rest ih =>
    cases chals with
    | nil => simp at h
    | cons cs csr =>
      simp only [List.map_cons, List.cons.injEq] at h
      have hrest := ih h.2
      simp only [challengeInputs, List.flatMap_cons] at hrest ⊢
      rw [challengesOf_of_challengeList h.1, hrest]

theorem mem_challengeInputs_packU64 {v : Fr} {proofs : List LayerProof}
    (hv : v ∈ challengeInputs proofs) : ∃ n, v = packU64 n := by
  rw [challengeInputs, List.mem_flatMap] at hv
  obtain ⟨lp, _, hmem⟩ := hv
  rw [challengesOf_eq_map, List.mem_map] at hmem
  obtain ⟨o, _, hod⟩ := hmem
  exact ⟨o.getD 0, hod.symm⟩

theorem packU64_val_lt (n : Nat) : (packU64 n).val < 2 ^ 64 := by
  rw [packU64, ZMod.val_natCast]
  have h1 : n % 2 ^ 64 < 2 ^ 64 := Nat.mod_lt _ (by norm_num)
  have h2 : n % 2 ^ 64 < rModulus := lt_trans h1 (by norm_num [rModulus])
  rw [Nat.mod_eq_of_lt h2]
  exact h1

theorem satisfiedB_false_of_mem {s : CSState} {a b : Fr}
    (hmem : (a, b) ∈ s.constraints) (hne : a ≠ b) : s.satisfiedB = false := by
  rw [CSState.satisfiedB, List.all_eq_false]
  exact ⟨(a, b), hmem, by simp [hne]⟩

/-- With no layer leaf, `NodeProof::synthesize` does not depend on the layer
root or the `with_parents` flag. -/
theorem nodeSynth_root_irrel (gd : Gadgets) (p : NodeProof) (cd : Fr)
    (r1 r2 : Fr) (wp1 wp2 : Bool) (s : CSState) :
    NodeProof.synthesize gd p cd r1 none wp1 s
      = NodeProof.synthesize gd p cd r2 none wp2 s := by
  cases hv : p.data_leaf <;>
    simp [NodeProof.synthesize, allocNum, hv, ite_self]

/-! ## Claim theorems -/

/-- C1: the claim states that in every layer proof each layer's derived
label — including the butterfly layers and the last layer — is constrained
equal to the leaf of that layer's Merkle inclusion proof.  The source
instead passes no layer leaf for the butterfly and last layers (the
derivations are commented out), so their layer openings are not constrained
at all: two circuits that differ only in the butterfly-layer and last-layer
openings synthesize the identical, fully satisfied constraint system. -/
theorem c1_butterfly_last_leaf_not_constrained :
    NseCircuit.synthesize gd0 cSat1 initState = .ok sSat
    ∧ NseCircuit.synthesize gd0 cSat2 initState = .ok sSat
    ∧ sSat.satisfiedB = true
    ∧ cSat1.layer_proofs ≠ cSat2.layer_proofs :=
  ⟨rfl, rfl, rfl, by decide⟩

/-- C2: the circuit allocates the `comm_layers` entries, pads them with zero
witnesses to a multiple of the Poseidon MD arity, hashes the padded sequence
and constrains the public input `comm_r` equal to the result; whenever the
supplied `comm_r` differs from the hash of the padded `comm_layers`, the
synthesized constraint system contains that equality as a violated
constraint and is unsatisfiable. -/
theorem c2_comm_r_invariant_unsat (gd : Gadgets) (c : NseCircuit) (ls : List Fr)
    (r : Fr) (s2 : CSState)
    (hr : c.comm_r = some r)
    (hls : c.comm_layers = ls.map some)
    (hrun : NseCircuit.synthesize gd c initState = .ok s2)
    (hne : r ≠ gd.hashMd (padList gd.arity ls)) :
    (r, gd.hashMd (padList gd.arity ls)) ∈ s2.constraints
    ∧ s2.satisfiedB = false := by
  obtain ⟨r2, d2, cr2, ls2, t, hr2, hd2, hcr2, hls2, hpi, hct, hpres⟩ :=
    nseSynth_ok hrun
  have hcr : cr2 = r := by
    rw [hr] at hcr2
    exact (Option.some_inj.mp hcr2).symm
  have hlseq : ls2 = ls := by
    rw [hls] at hls2
    exact (List.map_injective_iff.mpr (Option.some_injective Fr) hls2).symm
  have hmem : (r, gd.hashMd (padList gd.arity ls)) ∈ s2.constraints := by
    rw [hct, hcr, hlseq]
    simp [initState]
  exact ⟨hmem, satisfiedB_false_of_mem hmem hne⟩

theorem c2_witness :
    cW.comm_r = some 2
    ∧ cW.comm_layers = [(1 : Fr)].map some
    ∧ NseCircuit.synthesize gd0 cW initState = .ok sW
    ∧ (2 : Fr) ≠ gd0.hashMd (padList gd0.arity [1])
    ∧ ((2 : Fr), gd0.hashMd (padList gd0.arity [1])) ∈ sW.constraints
    ∧ sW.satisfiedB = false :=
  ⟨rfl, rfl, rfl, by decide,
   (c2_comm_r_invariant_unsat gd0 cW [1] 2 sW rfl rfl rfl (by decide)).1,
   (c2_comm_r_invariant_unsat gd0 cW [1] 2 sW rfl rfl rfl (by decide)).2⟩

/-- C3: the claim states that whenever parent openings accompany a node
proof, each parent leaf is authenticated by a Merkle inclusion check and
constrained equal to the derivation input.  In the source the
`with_parents` branch of `NodeProof::synthesize` is an empty `TODO`:
synthesis is identical whatever the parent openings carry and whether
`with_parents` is set or not, so no parent is authenticated or
consistency-checked. -/
theorem c3_parent_consistency_not_enforced :
    ∀ (gd : Gadgets) (p : NodeProof) (cd lr : Fr) (ll : Option Fr)
      (ps2 : List (Nat × Option Fr)) (s : CSState),
      NodeProof.synthesize gd { p with parents := ps2 } cd lr ll true s
        = NodeProof.synthesize gd p cd lr ll true s
      ∧ NodeProof.synthesize gd p cd lr ll true s
        = NodeProof.synthesize gd p cd lr ll false s := by
  intro gd p cd lr ll ps2 s
  constructor <;> cases hv : p.data_leaf <;> cases ll <;>
    simp [NodeProof.synthesize, allocNum, hv, ite_self]

/-- C4: the claim states that each butterfly layer's inclusion is checked
against the `comm_layers` entry of its layer number, distinct per butterfly
layer.  The source indexes `comm_layers_nums[layer - i]` with
`layer = i + num_expander_layers + 1`, which is the constant entry
`num_expander_layers + 1` for every butterfly layer; moreover the butterfly
section passes no layer leaf, so its synthesis result does not depend on
`comm_layers` at all. -/
theorem c4_butterfly_root_entry_constant :
    (∀ (config : Config) (i : Nat),
      butterflyRootIndex config i = config.num_expander_layers + 1)
    ∧ ∀ (gd : Gadgets) (config : Config) (cd : Fr) (cls1 cls2 : List Fr)
        (i : Nat) (ps : List NodeProof) (s : CSState),
        synthButterflyLayers gd config cd cls1 i ps s
          = synthButterflyLayers gd config cd cls2 i ps s := by
  constructor
  · intro config i
    rw [butterflyRootIndex]
    omega
  · intro gd config cd cls1 cls2 i ps s
    induction ps generalizing i s with
    | nil => rfl
    | cons proof rest ih =>
      cases hc : proof.challenge with
      | none => simp [synthButterflyLayers, allocUInt64, hc]
      | some n =>
        rw [synthButterflyLayers, synthButterflyLayers, hc]
        simp only [allocUInt64]
        rw [nodeSynth_root_irrel gd proof cd
          (cls1.getD (butterflyRootIndex config i) 0)
          (cls2.getD (butterflyRootIndex config i) 0) true true
          (packIntoInput (n % 2 ^ 64) s)]
        cases hres : NodeProof.synthesize gd proof cd
            (cls2.getD (butterflyRootIndex config i) 0) none true
            (packIntoInput (n % 2 ^ 64) s) with
        | error e => rfl
        | ok s3 =>
          simp only
          exact ih (i + 1) s3

/-- C5: circuit synthesis allocates its public inputs in exactly this
order: `replica_id`, `comm_d`, `comm_r`, then for every layer proof in
sequence and every layer within it in order (first layer, expander layers,
butterfly layers, last layer) the packed challenge index of that layer's
node proof, and nothing else. -/
theorem c5_public_input_order (gd : Gadgets) (c : NseCircuit) (r d cr : Fr)
    (s2 : CSState)
    (hr : c.replica_id = some r) (hd : c.comm_d = some d)
    (hcr : c.comm_r = some cr)
    (hrun : NseCircuit.synthesize gd c initState = .ok s2) :
    s2.publicInputs = r :: d :: cr :: challengeInputs c.layer_proofs := by
  obtain ⟨r2, d2, cr2, ls2, t, hr2, hd2, hcr2, hls2, hpi, hct, hpres⟩ :=
    nseSynth_ok hrun
  rw [hr] at hr2
  rw [hd] at hd2
  rw [hcr] at hcr2
  obtain rfl := Option.some_inj.mp hr2
  obtain rfl := Option.some_inj.mp hd2
  obtain rfl := Option.some_inj.mp hcr2
  rw [hpi]
  simp [initState]

theorem c5_witness :
    cL.replica_id = some 100
    ∧ cL.comm_d = some 102
    ∧ cL.comm_r = some 101
    ∧ NseCircuit.synthesize gd0 cL initState = .ok sL
    ∧ sL.publicInputs = 100 :: 102 :: 101 :: challengeInputs cL.layer_proofs :=
  ⟨rfl, rfl, rfl, rfl, c5_public_input_order gd0 cL 100 102 101 sL rfl rfl rfl rfl⟩

/-- C6: the native public-input generator (modelled from the spec) produces,
for every public-inputs/public-params pair, exactly the sequence of public
inputs the circuit allocates during synthesis for the corresponding proof
(excluding the constant ONE input): `challenges` is the per-layer-proof list
of derived challenge indices, and when the circuit's layer proofs carry
those challenges the two sequences agree element for element. -/
theorem c6_generate_public_inputs_refines (gd : Gadgets) (c : NseCircuit)
    (r d cr : Fr) (chals : List (List Nat)) (s2 : CSState)
    (hr : c.replica_id = some r) (hd : c.comm_d = some d)
    (hcr : c.comm_r = some cr)
    (hch : c.layer_proofs.map LayerProof.challengeList
      = chals.map (List.map some))
    (hrun : NseCircuit.synthesize gd c initState = .ok s2) :
    generatePublicInputs r d cr chals = s2.publicInputs := by
  obtain ⟨r2, d2, cr2, ls2, t, hr2, hd2, hcr2, hls2, hpi, hct, hpres⟩ :=
    nseSynth_ok hrun
  rw [hr] at hr2
  rw [hd] at hd2
  rw [hcr] at hcr2
  obtain rfl := Option.some_inj.mp hr2
  obtain rfl := Option.some_inj.mp hd2
  obtain rfl := Option.some_inj.mp hcr2
  rw [hpi, challengeInputs_of_challengeLists hch]
  simp [initState, generatePublicInputs]

theorem c6_witness :
    cL.layer_proofs.map LayerProof.challengeList
      = [[1, 2, 3, 4]].map (List.map some)
    ∧ NseCircuit.synthesize gd0 cL initState = .ok sL
    ∧ generatePublicInputs 100 102 101 [[1, 2, 3, 4]] = sL.publicInputs :=
  ⟨rfl, rfl,
   c6_generate_public_inputs_refines gd0 cL 100 102 101 [[1, 2, 3, 4]] sL
     rfl rfl rfl rfl rfl⟩

/-- C7: if any required witness value is absent — `replica_id`, `comm_d`,
`comm_r`, a `comm_layers` entry, any node proof's data leaf, or any
expander parent leaf — synthesis returns the missing-assignment error and
never completes successfully. -/
theorem c7_missing_witness_fails (gd : Gadgets) (c : NseCircuit)
    (h : c.replica_id = none ∨ c.comm_d = none ∨ c.comm_r = none
      ∨ none ∈ c.comm_layers
      ∨ ∃ lp ∈ c.layer_proofs,
          lp.first_layer_proof.data_leaf = none
          ∨ (∃ p ∈ lp.expander_layer_proofs,
              p.data_leaf = none ∨ ∃ q ∈ p.parents, q.2 = none)
          ∨ (∃ p ∈ lp.butterfly_layer_proofs, p.data_leaf = none)
          ∨ lp.last_layer_proof.data_leaf = none) :
    NseCircuit.synthesize gd c initState = .error .assignmentMissing := by
  cases hres : NseCircuit.synthesize gd c initState with
  | error e => rw [nseSynth_err hres]
  | ok s2 =>
    exfalso
    obtain ⟨r2, d2, cr2, ls2, t, hr2, hd2, hcr2, hls2, hpi, hct, hpres⟩ :=
      nseSynth_ok hres
    rcases h with h | h | h | h | h
    · rw [h] at hr2
      exact Option.noConfusion hr2
    · rw [h] at hd2
      exact Option.noConfusion hd2
    · rw [h] at hcr2
      exact Option.noConfusion hcr2
    · rw [hls2, List.mem_map] at h
      obtain ⟨x, hx1, hx⟩ := h
      exact Option.noConfusion hx
    · obtain ⟨lp, hmem, hmiss⟩ := h
      obtain ⟨⟨hp1, hp1c⟩, hpe, hpb, hp4, hp4c⟩ := hpres lp hmem
      rcases hmiss with hm | hm | hm | hm
      · rw [hm] at hp1
        simp at hp1
      · obtain ⟨p, hpmem, hpm⟩ := hm
        obtain ⟨⟨hdl, hdc⟩, hpar⟩ := hpe p hpmem
        rcases hpm with hpm | ⟨q, hqmem, hq⟩
        · rw [hpm] at hdl
          simp at hdl
        · have hq2 := hpar q hqmem
          rw [hq] at hq2
          simp at hq2
      · obtain ⟨p, hpmem, hpm⟩ := hm
        obtain ⟨hdl, hdc⟩ := hpb p hpmem
        rw [hpm] at hdl
        simp at hdl
      · rw [hm] at hp4
        simp at hp4

theorem c7_witness :
    cM.replica_id = none
    ∧ NseCircuit.synthesize gd0 cM initState = .error .assignmentMissing :=
  ⟨rfl, c7_missing_witness_fails gd0 cM (Or.inl rfl)⟩

/-- C9: every padding entry appended to `comm_layers` is a witness
allocation whose assignment is the zero field element; the padding never
fails and adds no constraint (it returns the state unchanged), and it
extends the sequence exactly to the smallest multiple of the Poseidon MD
arity that is at least the original length. -/
theorem c9_padding_zero_witnesses (arity : Nat) (xs : List Fr) (s : CSState)
    (h : 0 < arity) :
    padZeros arity xs s = .ok (padList arity xs, s)
    ∧ padList arity xs
        = xs ++ List.replicate ((arity - xs.length % arity) % arity) 0
    ∧ (padList arity xs).length % arity = 0
    ∧ ∀ m, m % arity = 0 → xs.length ≤ m → (padList arity xs).length ≤ m :=
  ⟨padZeros_eq arity xs s, rfl, padList_length_mod arity xs h,
   padList_length_min arity xs h⟩

theorem c9_witness :
    0 < 3
    ∧ (padZeros 3 [(5 : Fr)] initState = .ok (padList 3 [(5 : Fr)], initState)
      ∧ padList 3 [(5 : Fr)]
          = [(5 : Fr)] ++ List.replicate ((3 - [(5 : Fr)].length % 3) % 3) 0
      ∧ (padList 3 [(5 : Fr)]).length % 3 = 0
      ∧ ∀ m, m % 3 = 0 → [(5 : Fr)].length ≤ m → (padList 3 [(5 : Fr)]).length ≤ m) :=
  ⟨by decide, c9_padding_zero_witnesses 3 [(5 : Fr)] initState (by decide)⟩

/-- C10: every packed challenge-index public input (every input after the
three header inputs) is a 64-bit value: its canonical natural-number value
is strictly below `2 ^ 64`. -/
theorem c10_packed_challenge_lt (gd : Gadgets) (c : NseCircuit) (s2 : CSState)
    (v : Fr)
    (hrun : NseCircuit.synthesize gd c initState = .ok s2)
    (hv : v ∈ s2.publicInputs.drop 3) :
    v.val < 2 ^ 64 := by
  obtain ⟨r2, d2, cr2, ls2, t, hr2, hd2, hcr2, hls2, hpi, hct, hpres⟩ :=
    nseSynth_ok hrun
  rw [hpi] at hv
  simp only [initState, List.nil_append, List.drop_succ_cons, List.drop_zero] at hv
  obtain ⟨n, rfl⟩ := mem_challengeInputs_packU64 hv
  exact packU64_val_lt n

theorem c10_witness :
    NseCircuit.synthesize gd0 cL initState = .ok sL
    ∧ (1 : Fr) ∈ sL.publicInputs.drop 3
    ∧ ((1 : Fr)).val < 2 ^ 64 :=
  ⟨rfl, by simp [sL], c10_packed_challenge_lt gd0 cL sL 1 rfl (by simp [sL])⟩
